import Mathlib

/-!
  Verification of the NASDAQ ITCH 5.0 hourly-VWAP parser.

  Shallow embedding of src/itch50_parser.py.  The byte stream is a
  `List Nat` (each entry one byte).  Python dictionaries become
  association lists with first-match lookup and in-place update.
  Python's arbitrary-precision integers become `Nat`/`Int`, and the
  float prices (wire uint32 divided by 10 ^ 4, later multiplied by an
  integer quantity and divided for the average) become `ℚ`: every
  price in the claims is an exact dyadic or decimal value, so ℚ is a
  faithful carrier for the arithmetic the claims mention.
  Python runtime exceptions (KeyError on a missing dictionary key,
  struct.error on a short buffer, UnicodeDecodeError on a non-ASCII
  byte) become an `Except` error value that aborts the run.
-/

/-- Big-endian interpretation of a byte list as a natural number
(the effect of struct.unpack of an unsigned big-endian field). -/
def beNat (bs : List Nat) : Nat := bs.foldl (fun a b => a * 256 + b) 0

/-- The unsigned big-endian field of length `len` starting at byte
offset `off` of a message payload. -/
def field (msg : List Nat) (off len : Nat) : Nat := beNat ((msg.drop off).take len)

/-- decodeTimestamp: the source pads the 6-byte timestamp with two
leading zero bytes and unpacks the result as a big-endian uint64. -/
def decodeTimestamp (ts : List Nat) : Nat := beNat (0 :: 0 :: ts)

/-- Association-list lookup, first match wins (Python dict read). -/
def alLookup {α β : Type} [DecidableEq α] (k : α) : List (α × β) → Option β
  | [] => none
  | (k', v) :: t => if k' = k then some v else alLookup k t

/-- Association-list update (Python dict assignment): overwrite the
first entry with the given key, or append a fresh entry. -/
def alUpdate {α β : Type} [DecidableEq α] (k : α) (v : β) : List (α × β) → List (α × β)
  | [] => [(k, v)]
  | (k', v') :: t => if k' = k then (k, v) :: t else (k', v') :: alUpdate k v t

/-- messageMap: payload byte length per ASCII message-type tag, in the
source's insertion order.  Keys are the ASCII codes of the tag
characters ("S" = 83, "R" = 82, ..., "N" = 78). -/
def messageMap : List (Nat × Nat) :=
  [(83, 11), (82, 38), (72, 24), (89, 19), (76, 25), (86, 34), (87, 11),
   (75, 27), (74, 34), (104, 20), (65, 35), (70, 39), (69, 30), (67, 35),
   (88, 22), (68, 18), (85, 34), (80, 43), (81, 39), (66, 18), (73, 49),
   (78, 19)]

/-- Runtime failures of the Python program: a missing dictionary key,
a struct.unpack on a short buffer, a bytes.decode on a non-ASCII byte. -/
inductive PErr : Type
  | keyError : PErr
  | unpackError : PErr
  | decodeError : PErr
deriving DecidableEq

/-- ASCII decoding of a byte list (each byte already checked < 128). -/
def decodeAscii (bs : List Nat) : String := String.mk (bs.map Char.ofNat)

/-- The mutable state threaded through the decode loop of parseTrades:
session timestamps, the stock directory, the order-reference table,
the collected trade events and the market-started flag. -/
structure PState : Type where
  openTime : Nat
  endTime : Nat
  stock_map : List (Nat × String)
  added_orders : List (Nat × ℚ)
  filled_orders : List (Nat × ℚ × Nat × Nat)
  started : Bool
deriving DecidableEq

/-- The initial state of parseTrades before any message is read. -/
def initState : PState := ⟨0, 0, [], [], [], false⟩

/-- The "S" branch of the dispatch chain: unpack HH6sc, record the
open timestamp and flip started on event code "Q" (81), record the
close timestamp and break on event code "M" (77). -/
def stepS (st : PState) (msg : List Nat) : Except PErr (PState × Bool) :=
  if msg.length = 11 then
    if 128 ≤ field msg 10 1 then .error .decodeError
    else if field msg 10 1 = 81 then
      .ok ({ st with openTime := decodeTimestamp ((msg.drop 4).take 6), started := true }, false)
    else if field msg 10 1 = 77 then
      .ok ({ st with endTime := decodeTimestamp ((msg.drop 4).take 6) }, true)
    else .ok (st, false)
  else .error .unpackError

/-- The "R" branch: register stock id to ticker (decoded, stripped). -/
def stepR (st : PState) (msg : List Nat) : Except PErr (PState × Bool) :=
  if msg.length = 38 then
    if ((msg.drop 10).take 8).all (fun b => b < 128) then
      .ok ({ st with stock_map := alUpdate (field msg 0 2) (decodeAscii ((msg.drop 10).take 8)).trim st.stock_map }, false)
    else .error .decodeError
  else .error .unpackError

/-- The "A" branch: register reference number (uint64 at offset 10) to
price (uint32 at offset 31 over 10 ^ 4). -/
def stepA (st : PState) (msg : List Nat) : Except PErr (PState × Bool) :=
  if msg.length = 35 then
    .ok ({ st with added_orders := alUpdate (field msg 10 8) ((field msg 31 4 : ℚ) / ((10 ^ 4 : ℕ) : ℚ)) st.added_orders }, false)
  else .error .unpackError

/-- The "F" branch: as "A" with four extra trailing MPID bytes. -/
def stepF (st : PState) (msg : List Nat) : Except PErr (PState × Bool) :=
  if msg.length = 39 then
    .ok ({ st with added_orders := alUpdate (field msg 10 8) ((field msg 31 4 : ℚ) / ((10 ^ 4 : ℕ) : ℚ)) st.added_orders }, false)
  else .error .unpackError

/-- The "E" branch: look the reference number up in the order table
(KeyError when absent) and append a trade at the registered price with
the message's own quantity and timestamp. -/
def stepE (st : PState) (msg : List Nat) : Except PErr (PState × Bool) :=
  if msg.length = 30 then
    match alLookup (field msg 10 8) st.added_orders with
    | none => .error .keyError
    | some price =>
      .ok ({ st with filled_orders := st.filled_orders ++ [(field msg 0 2, price, field msg 18 4, decodeTimestamp ((msg.drop 4).take 6))] }, false)
  else .error .unpackError

/-- The "C" branch: append a trade at the message's own price only
when the printable flag byte is "Y" (89); otherwise do nothing. -/
def stepC (st : PState) (msg : List Nat) : Except PErr (PState × Bool) :=
  if msg.length = 35 then
    if 128 ≤ field msg 30 1 then .error .decodeError
    else if field msg 30 1 = 89 then
      .ok ({ st with filled_orders := st.filled_orders ++ [(field msg 0 2, (field msg 31 4 : ℚ) / ((10 ^ 4 : ℕ) : ℚ), field msg 18 4, decodeTimestamp ((msg.drop 4).take 6))] }, false)
    else .ok (st, false)
  else .error .unpackError

/-- The "U" branch: register the new reference number (second uint64,
offset 18) to the message's price (uint32 at offset 30 over 10 ^ 4). -/
def stepU (st : PState) (msg : List Nat) : Except PErr (PState × Bool) :=
  if msg.length = 34 then
    .ok ({ st with added_orders := alUpdate (field msg 18 8) ((field msg 30 4 : ℚ) / ((10 ^ 4 : ℕ) : ℚ)) st.added_orders }, false)
  else .error .unpackError

/-- The "P" branch: append a trade from the message's own embedded
price, quantity and timestamp. -/
def stepP (st : PState) (msg : List Nat) : Except PErr (PState × Bool) :=
  if msg.length = 43 then
    .ok ({ st with filled_orders := st.filled_orders ++ [(field msg 0 2, (field msg 31 4 : ℚ) / ((10 ^ 4 : ℕ) : ℚ), field msg 19 4, decodeTimestamp ((msg.drop 4).take 6))] }, false)
  else .error .unpackError

/-- One iteration of the decode loop's dispatch chain for a recognized
tag, given the (already read) payload bytes.  Returns the new state and
a flag saying whether the loop breaks (market-close message).
Mirrors the if/elif chain of the source: S, R, A, F, E (gated on
started), C (gated), U (ungated), P (gated), and a silent fall-through
for every other recognized tag.  struct.unpack on a payload of the
wrong length and bytes.decode of a non-ASCII byte are errors. -/
def stepMsg (st : PState) (tag : Nat) (msg : List Nat) : Except PErr (PState × Bool) :=
  if tag = 83 then stepS st msg
  else if tag = 82 then stepR st msg
  else if tag = 65 then stepA st msg
  else if tag = 70 then stepF st msg
  else if tag = 69 ∧ st.started = true then stepE st msg
  else if tag = 67 ∧ st.started = true then stepC st msg
  else if tag = 85 then stepU st msg
  else if tag = 80 ∧ st.started = true then stepP st msg
  else .ok (st, false)

/-- The decode loop with explicit fuel.  Each iteration reads one tag
byte (aborting on a non-ASCII byte, exactly as bytes.decode would),
and, when the tag is in messageMap, reads that many payload bytes and
dispatches through stepMsg.  A tag outside messageMap consumes only
its own byte and the loop continues at the next byte.  Every
iteration consumes at least one byte, so fuel = length of the stream
never runs out; the fuel-zero case on a nonempty stream is
unreachable and returns the state unchanged. -/
def parseLoopF : Nat → List Nat → PState → Except PErr PState
  | _, [], st => .ok st
  | 0, _ :: _, st => .ok st
  | fuel + 1, tag :: rest, st =>
    if 128 ≤ tag then .error .decodeError
    else
      match alLookup tag messageMap with
      | some steps =>
        match stepMsg st tag (rest.take steps) with
        | .error e => .error e
        | .ok (st', true) => .ok st'
        | .ok (st', false) => parseLoopF fuel (rest.drop steps) st'
      | none => parseLoopF fuel rest st

/-- The decode loop of parseTrades over a whole byte stream. -/
def parseLoop (bytes : List Nat) (st : PState) : Except PErr PState :=
  parseLoopF bytes.length bytes st

/-- The seven bucket labels set up by hourlyMap, in the source's
chronological order: "%d:00" of ((n + 11) mod 12 + 1) for n = 10..16,
that is the 12-hour clock labels 10:00, 11:00, 12:00, 1:00, 2:00,
3:00, 4:00. -/
def hourLabels : List String :=
  (List.range' 10 7).map (fun n => toString ((n + 11) % 12 + 1) ++ ":00")

/-- hourlyMap: one row per stock id, each row holding the seven hour
buckets initialized to (0, 0).  The openTime and endTime parameters
are accepted and unused, as in the source. -/
def hourlyMap (stockIDs : List Nat) (openTime endTime : Nat) :
    List (Nat × List (String × (ℚ × Nat))) :=
  stockIDs.map (fun ID => (ID, hourLabels.map (fun h => (h, ((0 : ℚ), (0 : Nat))))))

/-- Nanoseconds per hour. -/
def nsPerHour : Int := (10 ^ 9) * (60 * 60)

/-- calculateHour: the bucket label of a timestamp, computed from its
floor-divided distance to the session close.  Python's // and % are
floor division and floor modulus, hence Int.fdiv and Int.emod. -/
def calculateHour (time endTime : Int) : String :=
  toString ((min (16 - ((endTime - time).fdiv nsPerHour)) 16 + 11).emod 12 + 1) ++ ":00"

/-- parseOrders: fold the collected trades into the per-stock,
per-hour buckets, adding price * quantity to the bucket value and
quantity to the bucket quantity.  A stock id or hour label missing
from the table is a KeyError. -/
def parseOrders (trades : List (Nat × List (String × (ℚ × Nat))))
    (orders : List (Nat × ℚ × Nat × Nat)) (endTime : Nat) :
    Except PErr (List (Nat × List (String × (ℚ × Nat)))) :=
  match orders with
  | [] => .ok trades
  | (stock, price, quantity, time) :: rest =>
    let hour := calculateHour (time : Int) (endTime : Int)
    match alLookup stock trades with
    | none => .error .keyError
    | some stockTrades =>
      match alLookup hour stockTrades with
      | none => .error .keyError
      | some (curValue, curQuantity) =>
        parseOrders
          (alUpdate stock
            (alUpdate hour (curValue + price * (quantity : ℚ), curQuantity + quantity) stockTrades)
            trades)
          rest endTime

/-- parseTrades: run the decode loop from the initial state, then
build the empty hourly table over the directory's stock ids and fold
the collected trades into it. -/
def parseTrades (bytes : List Nat) :
    Except PErr (List (Nat × String) × List (Nat × List (String × (ℚ × Nat)))) :=
  match parseLoop bytes initState with
  | .error e => .error e
  | .ok st =>
    match parseOrders (hourlyMap (st.stock_map.map Prod.fst) st.openTime st.endTime)
        st.filled_orders st.endTime with
    | .error e => .error e
    | .ok trades => .ok (st.stock_map, trades)

/-- VWAP: add one hour's bucket into the running totals and emit the
running average, total value over total quantity, or 0 when the total
quantity is zero. -/
def VWAP (tradeTuple : ℚ × Nat) (runningValue : ℚ := 0) (runningQuantity : Nat := 0) :
    ℚ × Nat × ℚ :=
  let totalValue := tradeTuple.1 + runningValue
  let totalQuantity := tradeTuple.2 + runningQuantity
  if totalQuantity ≠ 0 then (totalValue, totalQuantity, totalValue / (totalQuantity : ℚ))
  else (totalValue, totalQuantity, (0 : ℚ))

/-- The per-security loop of main: walk the hour labels in order,
look up each bucket (a missing label is a KeyError), feed it to VWAP
with the carried running totals, and record the triple
(running value, running quantity, emitted vwap) for every hour. -/
def vwapRowAux (stockTrades : List (String × (ℚ × Nat))) (labels : List String)
    (v : ℚ) (q : Nat) : Except PErr (List (ℚ × Nat × ℚ)) :=
  match labels with
  | [] => .ok []
  | h :: t =>
    match alLookup h stockTrades with
    | none => .error .keyError
    | some b =>
      let r := VWAP b v q
      match vwapRowAux stockTrades t r.1 r.2.1 with
      | .error e => .error e
      | .ok l => .ok (r :: l)

/-- The emitted running-VWAP column values of one security's row,
in chronological order. -/
def vwapRow (stockTrades : List (String × (ℚ × Nat))) : Except PErr (List ℚ) :=
  match vwapRowAux stockTrades hourLabels 0 0 with
  | .error e => .error e
  | .ok l => .ok (l.map (fun r => r.2.2))

/-- A tag/payload pair framed the way the loop frames it: the tag is
ASCII and recognized, and the payload has exactly the declared length. -/
def wfMsg (m : Nat × List Nat) : Prop :=
  m.1 < 128 ∧ alLookup m.1 messageMap = some m.2.length

/-- The byte encoding of a sequence of framed messages. -/
def encodeMsgs (ms : List (Nat × List Nat)) : List Nat :=
  (ms.map (fun m => m.1 :: m.2)).flatten

/-- Run the loop body over a list of framed messages, stopping at a
break or error. -/
def runMsgs : List (Nat × List Nat) → PState → Except PErr (PState × Bool)
  | [], st => .ok (st, false)
  | m :: rest, st =>
    match stepMsg st m.1 m.2 with
    | .error e => .error e
    | .ok (st', true) => .ok (st', true)
    | .ok (st', false) => runMsgs rest st'

/-- A framed message that writes the order-reference table at
reference number r: an Add ("A"/"F") whose reference field is r, or a
Replace ("U") whose new-reference field is r. -/
def registersRef (r : Nat) (m : Nat × List Nat) : Prop :=
  ((m.1 = 65 ∨ m.1 = 70) ∧ field m.2 10 8 = r) ∨ (m.1 = 85 ∧ field m.2 18 8 = r)

instance {α β : Type} [DecidableEq α] [DecidableEq β] : DecidableEq (Except α β) := fun a b =>
  match a, b with
  | .error x, .error y =>
    if h : x = y then .isTrue (congrArg Except.error h)
    else .isFalse (fun he => h (Except.error.inj he))
  | .ok x, .ok y =>
    if h : x = y then .isTrue (congrArg Except.ok h)
    else .isFalse (fun he => h (Except.ok.inj he))
  | .error _, .ok _ => .isFalse (fun he => Except.noConfusion he)
  | .ok _, .error _ => .isFalse (fun he => Except.noConfusion he)


/-! ## Association-list lemmas -/

/-- Reading an updated association list: the updated key returns the
new value, every other key is untouched. -/
theorem alLookup_alUpdate {α β : Type} [DecidableEq α] (k k' : α) (v : β) (l : List (α × β)) :
    alLookup k' (alUpdate k v l) = if k' = k then some v else alLookup k' l := by
  induction l with
  | nil =>
    simp only [alUpdate, alLookup]
    split_ifs <;> first | rfl | simp_all
  | cons hd t ih =>
    obtain ⟨k'', v''⟩ := hd
    by_cases hk : k'' = k
    · subst hk
      simp only [alUpdate, if_pos rfl, alLookup]
      split_ifs <;> first | rfl | simp_all
    · simp only [alUpdate, if_neg hk, alLookup, ih]
      split_ifs <;> first | rfl | simp_all

/-- Updating one key leaves the lookup of a different key unchanged. -/
theorem alLookup_alUpdate_ne {α β : Type} [DecidableEq α] {k k' : α} (v : β) (l : List (α × β))
    (h : k' ≠ k) : alLookup k' (alUpdate k v l) = alLookup k' l := by
  rw [alLookup_alUpdate, if_neg h]

/-! ## Decode-loop framing lemmas -/

/-- The fuel argument of parseLoopF is irrelevant as long as it is at
least the length of the stream: every iteration consumes at least one
byte. -/
theorem parseLoopF_congr : ∀ (f g : Nat) (bytes : List Nat) (st : PState),
    bytes.length ≤ f → bytes.length ≤ g → parseLoopF f bytes st = parseLoopF g bytes st := by
  intro f
  induction f with
  | zero =>
    intro g bytes st hf _
    cases bytes with
    | nil => cases g <;> rfl
    | cons tag rest => simp at hf
  | succ f ih =>
    intro g bytes st hf hg
    cases bytes with
    | nil => cases g <;> rfl
    | cons tag rest =>
      cases g with
      | zero => simp at hg
      | succ g =>
        simp only [List.length_cons, Nat.succ_le_succ_iff] at hf hg
        by_cases htag : 128 ≤ tag
        · simp only [parseLoopF, if_pos htag]
        · cases halt : alLookup tag messageMap with
          | none =>
            simp only [parseLoopF, if_neg htag, halt]
            exact ih g rest st hf hg
          | some steps =>
            simp only [parseLoopF, if_neg htag, halt]
            cases hstep : stepMsg st tag (rest.take steps) with
            | error e => rfl
            | ok p =>
              obtain ⟨st', b⟩ := p
              cases b with
              | true => rfl
              | false =>
                have hd : (rest.drop steps).length ≤ rest.length := by
                  rw [List.length_drop]; omega
                exact ih g (rest.drop steps) st' (le_trans hd hf) (le_trans hd hg)

/-- Unfolding the loop at an empty stream. -/
theorem parseLoop_nil (st : PState) : parseLoop [] st = .ok st := rfl

/-- Unfolding the loop at a non-ASCII tag byte: bytes.decode fails. -/
theorem parseLoop_cons_bad (tag : Nat) (rest : List Nat) (st : PState) (h : 128 ≤ tag) :
    parseLoop (tag :: rest) st = .error .decodeError := by
  show parseLoopF (rest.length + 1) (tag :: rest) st = _
  simp only [parseLoopF, if_pos h]

/-- Unfolding the loop at an ASCII tag absent from messageMap: the
loop consumes only the tag byte and continues at the next byte. -/
theorem parseLoop_cons_skip (tag : Nat) (rest : List Nat) (st : PState)
    (h1 : tag < 128) (h2 : alLookup tag messageMap = none) :
    parseLoop (tag :: rest) st = parseLoop rest st := by
  show parseLoopF (rest.length + 1) (tag :: rest) st = _
  simp only [parseLoopF, if_neg (by omega : ¬ 128 ≤ tag), h2]
  rfl

/-- Unfolding the loop at a recognized tag: read the declared number
of payload bytes, dispatch through stepMsg, stop on error or break,
and otherwise continue after the payload. -/
theorem parseLoop_cons_known (tag steps : Nat) (rest : List Nat) (st : PState)
    (h1 : tag < 128) (h2 : alLookup tag messageMap = some steps) :
    parseLoop (tag :: rest) st =
      match stepMsg st tag (rest.take steps) with
      | .error e => .error e
      | .ok (st', true) => .ok st'
      | .ok (st', false) => parseLoop (rest.drop steps) st' := by
  show parseLoopF (rest.length + 1) (tag :: rest) st = _
  simp only [parseLoopF, if_neg (by omega : ¬ 128 ≤ tag), h2]
  cases hstep : stepMsg st tag (rest.take steps) with
  | error e => rfl
  | ok p =>
    obtain ⟨st', b⟩ := p
    cases b with
    | true => rfl
    | false =>
      exact parseLoopF_congr rest.length (rest.drop steps).length (rest.drop steps) st'
        (by rw [List.length_drop]; omega) le_rfl
theorem stepMsg_ok_inv (st : PState) (tag : Nat) (msg : List Nat) (st' : PState) (b : Bool)
    (r : Nat) (h : stepMsg st tag msg = .ok (st', b)) (hnr : ¬ registersRef r (tag, msg)) :
    alLookup r st'.added_orders = alLookup r st.added_orders ∧
      (st.started = true → st'.started = true) := by
  unfold stepMsg at h
  split_ifs at h with h83 h82 h65 h70 h69 h67 h85 h80
  · -- S
    unfold stepS at h
    repeat' split at h
    all_goals try exact Except.noConfusion h
    all_goals injection h with hp
    all_goals injection hp with he1 he2
    all_goals subst he1
    all_goals first
      | exact ⟨rfl, fun hs => hs⟩
      | exact ⟨rfl, fun hs => rfl⟩
  · -- R
    unfold stepR at h
    repeat' split at h
    all_goals try exact Except.noConfusion h
    all_goals injection h with hp
    all_goals injection hp with he1 he2
    all_goals subst he1
    all_goals exact ⟨rfl, fun hs => hs⟩
  · -- A
    unfold stepA at h
    repeat' split at h
    all_goals try exact Except.noConfusion h
    injection h with hp; injection hp with he1 he2; subst he1
    refine ⟨?_, fun hs => hs⟩
    exact alLookup_alUpdate_ne _ _ (fun he => hnr (Or.inl ⟨Or.inl h65, he.symm⟩))
  · -- F
    unfold stepF at h
    repeat' split at h
    all_goals try exact Except.noConfusion h
    injection h with hp; injection hp with he1 he2; subst he1
    refine ⟨?_, fun hs => hs⟩
    exact alLookup_alUpdate_ne _ _ (fun he => hnr (Or.inl ⟨Or.inr h70, he.symm⟩))
  · -- E
    unfold stepE at h
    repeat' split at h
    all_goals try exact Except.noConfusion h
    injection h with hp; injection hp with he1 he2; subst he1
    exact ⟨rfl, fun hs => hs⟩
  · -- C
    unfold stepC at h
    repeat' split at h
    all_goals try exact Except.noConfusion h
    all_goals injection h with hp
    all_goals injection hp with he1 he2
    all_goals subst he1
    all_goals exact ⟨rfl, fun hs => hs⟩
  · -- U
    unfold stepU at h
    repeat' split at h
    all_goals try exact Except.noConfusion h
    injection h with hp; injection hp with he1 he2; subst he1
    refine ⟨?_, fun hs => hs⟩
    exact alLookup_alUpdate_ne _ _ (fun he => hnr (Or.inr ⟨h85, he.symm⟩))
  · -- P
    unfold stepP at h
    repeat' split at h
    all_goals try exact Except.noConfusion h
    injection h with hp; injection hp with he1 he2; subst he1
    exact ⟨rfl, fun hs => hs⟩
  · -- fall-through
    injection h with hp; injection hp with he1 he2; subst he1
    exact ⟨rfl, fun hs => hs⟩
/-- Preservation over a run of framed messages that ends without a
break: a reference number no message registers keeps its table entry,
and a started session stays started. -/
theorem runMsgs_ok_inv (ms : List (Nat × List Nat)) (st st' : PState) (r : Nat)
    (h : runMsgs ms st = .ok (st', false))
    (hnr : ∀ m ∈ ms, ¬ registersRef r m) :
    alLookup r st'.added_orders = alLookup r st.added_orders ∧
      (st.started = true → st'.started = true) := by
  induction ms generalizing st with
  | nil =>
    simp only [runMsgs] at h
    injection h with hp; injection hp with he1 he2; subst he1
    exact ⟨rfl, fun hs => hs⟩
  | cons m ms ih =>
    simp only [runMsgs] at h
    cases hstep : stepMsg st m.1 m.2 with
    | error e => rw [hstep] at h; exact Except.noConfusion h
    | ok p =>
      obtain ⟨st1, b1⟩ := p
      rw [hstep] at h
      cases b1 with
      | true =>
        injection h with hp; injection hp with he1 he2
        exact absurd he2 (by simp)
      | false =>
        have hstep' := stepMsg_ok_inv st m.1 m.2 st1 false r hstep (hnr m (List.mem_cons_self m ms))
        have hrest := ih st1 h (fun m' hm' => hnr m' (List.mem_cons_of_mem m hm'))
        exact ⟨hrest.1.trans hstep'.1, fun hs => hrest.2 (hstep'.2 hs)⟩

/-- Running the loop over an encoding of framed messages followed by
a tail: the loop processes the messages one by one through stepMsg,
stopping at an error or a break, and otherwise continues on the tail. -/
theorem parseLoop_encodeMsgs (ms : List (Nat × List Nat)) (tail : List Nat) (st : PState)
    (hwf : ∀ m ∈ ms, wfMsg m) :
    parseLoop (encodeMsgs ms ++ tail) st =
      match runMsgs ms st with
      | .error e => .error e
      | .ok (st', true) => .ok st'
      | .ok (st', false) => parseLoop tail st' := by
  induction ms generalizing st with
  | nil => simp only [encodeMsgs, List.map_nil, List.flatten_nil, List.nil_append, runMsgs]
  | cons m ms ih =>
    obtain ⟨htag, hlen⟩ := hwf m (List.mem_cons_self m ms)
    have henc : encodeMsgs (m :: ms) ++ tail = m.1 :: (m.2 ++ (encodeMsgs ms ++ tail)) := by
      simp [encodeMsgs]
    rw [henc, parseLoop_cons_known m.1 m.2.length _ st htag hlen]
    rw [List.take_left, List.drop_left]
    cases hstep : stepMsg st m.1 m.2 with
    | error e => simp only [runMsgs, hstep]
    | ok p =>
      obtain ⟨st1, b1⟩ := p
      cases b1 with
      | true => simp only [runMsgs, hstep]
      | false =>
        simp only [runMsgs, hstep]
        exact ih st1 (fun m' hm' => hwf m' (List.mem_cons_of_mem m hm'))

/-- The default element used when indexing emitted triples. -/
def vwapDefault : ℚ × Nat × ℚ := (0, 0, 0)

/-- The average VWAP returns is total value over total quantity when
the total quantity is nonzero, and 0 otherwise. -/
theorem VWAP_emit (b : ℚ × Nat) (v : ℚ) (q : Nat) :
    (VWAP b v q).2.2 = if (VWAP b v q).2.1 ≠ 0 then (VWAP b v q).1 / ((VWAP b v q).2.1 : ℚ) else 0 := by
  rcases eq_or_ne (b.2 + q) 0 with hq | hq <;> simp [VWAP, hq]

/-- The cumulative pair VWAP carries is the bucket plus the running
totals. -/
theorem VWAP_cum (b : ℚ × Nat) (v : ℚ) (q : Nat) :
    (VWAP b v q).1 = b.1 + v ∧ (VWAP b v q).2.1 = b.2 + q := by
  rcases eq_or_ne (b.2 + q) 0 with hq | hq <;> simp [VWAP, hq]

/-- The per-security loop emits one triple per label. -/
theorem vwapRowAux_length (stockTrades : List (String × (ℚ × Nat))) (labels : List String)
    (v : ℚ) (q : Nat) (l : List (ℚ × Nat × ℚ))
    (h : vwapRowAux stockTrades labels v q = .ok l) : l.length = labels.length := by
  induction labels generalizing v q l with
  | nil =>
    simp only [vwapRowAux, Except.ok.injEq] at h
    subst h; rfl
  | cons lab t ih =>
    simp only [vwapRowAux] at h
    cases hlk : alLookup lab stockTrades with
    | none => simp only [hlk] at h; exact Except.noConfusion h
    | some b =>
      simp only [hlk] at h
      cases hrec : vwapRowAux stockTrades t (VWAP b v q).1 (VWAP b v q).2.1 with
      | error e => simp only [hrec] at h; exact Except.noConfusion h
      | ok l2 =>
        simp only [hrec, Except.ok.injEq] at h
        subst h
        simp only [List.length_cons, ih _ _ _ hrec]

/-- When every label is present in the row, the per-security loop
succeeds. -/
theorem vwapRowAux_total (stockTrades : List (String × (ℚ × Nat))) (labels : List String)
    (v : ℚ) (q : Nat) (h : ∀ lab ∈ labels, (alLookup lab stockTrades).isSome) :
    ∃ l, vwapRowAux stockTrades labels v q = .ok l := by
  induction labels generalizing v q with
  | nil => exact ⟨[], rfl⟩
  | cons lab t ih =>
    have hlab := h lab (List.mem_cons_self lab t)
    cases hlk : alLookup lab stockTrades with
    | none => rw [hlk] at hlab; exact absurd hlab (by simp)
    | some b =>
      obtain ⟨l2, hrec⟩ := ih (VWAP b v q).1 (VWAP b v q).2.1
        (fun lab2 hl2 => h lab2 (List.mem_cons_of_mem lab hl2))
      exact ⟨VWAP b v q :: l2, by simp only [vwapRowAux, hlk, hrec]⟩

/-- Every emitted triple obeys the emit rule: the third component is
value over quantity when the carried quantity is nonzero, else 0. -/
theorem vwapRowAux_emit (stockTrades : List (String × (ℚ × Nat))) (labels : List String)
    (v : ℚ) (q : Nat) (l : List (ℚ × Nat × ℚ))
    (h : vwapRowAux stockTrades labels v q = .ok l) :
    ∀ e ∈ l, e.2.2 = if e.2.1 ≠ 0 then e.1 / (e.2.1 : ℚ) else 0 := by
  induction labels generalizing v q l with
  | nil =>
    simp only [vwapRowAux, Except.ok.injEq] at h
    subst h
    intro e he; cases he
  | cons lab t ih =>
    simp only [vwapRowAux] at h
    cases hlk : alLookup lab stockTrades with
    | none => simp only [hlk] at h; exact Except.noConfusion h
    | some b =>
      simp only [hlk] at h
      cases hrec : vwapRowAux stockTrades t (VWAP b v q).1 (VWAP b v q).2.1 with
      | error e => simp only [hrec] at h; exact Except.noConfusion h
      | ok l2 =>
        simp only [hrec, Except.ok.injEq] at h
        subst h
        intro e he
        rcases List.mem_cons.1 he with he1 | he2
        · subst he1; exact VWAP_emit b v q
        · exact ih _ _ _ hrec e he2

/-- The fold structure of the per-security loop: the first triple is
VWAP of the first bucket with the initial totals, and each following
triple is VWAP of its bucket with the totals carried out of the
previous triple. -/
theorem vwapRowAux_chain (stockTrades : List (String × (ℚ × Nat))) (labels : List String)
    (v : ℚ) (q : Nat) (l : List (ℚ × Nat × ℚ))
    (h : vwapRowAux stockTrades labels v q = .ok l) :
    (0 < l.length → ∃ b, alLookup (labels.getD 0 "") stockTrades = some b ∧
        l.getD 0 vwapDefault = VWAP b v q) ∧
    (∀ i, i + 1 < l.length → ∃ b, alLookup (labels.getD (i + 1) "") stockTrades = some b ∧
        l.getD (i + 1) vwapDefault = VWAP b (l.getD i vwapDefault).1 (l.getD i vwapDefault).2.1) := by
  induction labels generalizing v q l with
  | nil =>
    simp only [vwapRowAux, Except.ok.injEq] at h
    subst h
    exact ⟨fun hlt => absurd hlt (by simp), fun i hi => absurd hi (by simp)⟩
  | cons lab t ih =>
    simp only [vwapRowAux] at h
    cases hlk : alLookup lab stockTrades with
    | none => simp only [hlk] at h; exact Except.noConfusion h
    | some b =>
      simp only [hlk] at h
      cases hrec : vwapRowAux stockTrades t (VWAP b v q).1 (VWAP b v q).2.1 with
      | error e => simp only [hrec] at h; exact Except.noConfusion h
      | ok l2 =>
        simp only [hrec, Except.ok.injEq] at h
        subst h
        have ihrec := ih _ _ _ hrec
        constructor
        · intro _
          exact ⟨b, hlk, rfl⟩
        · intro i hi
          cases i with
          | zero =>
            have h0 : 0 < l2.length := by
              simp only [List.length_cons] at hi; omega
            obtain ⟨b2, hb2, he2⟩ := ihrec.1 h0
            exact ⟨b2, hb2, by simpa using he2⟩
          | succ j =>
            have hj : j + 1 < l2.length := by
              simp only [List.length_cons] at hi; omega
            obtain ⟨b2, hb2, he2⟩ := ihrec.2 j hj
            exact ⟨b2, hb2, by simpa using he2⟩

/-! ## Dispatch lemmas: which branch each tag reaches -/

/-- Tag "S" (83) always dispatches to the system-message branch. -/
theorem stepMsg_S (st : PState) (msg : List Nat) : stepMsg st 83 msg = stepS st msg := by
  simp [stepMsg]

/-- Tag "E" (69) dispatches to the execute branch once started. -/
theorem stepMsg_E (st : PState) (msg : List Nat) (hstart : st.started = true) :
    stepMsg st 69 msg = stepE st msg := by
  simp [stepMsg, hstart]

/-- Tag "E" (69) before the session starts is a silent no-op. -/
theorem stepMsg_E_not_started (st : PState) (msg : List Nat) (hstart : st.started = false) :
    stepMsg st 69 msg = .ok (st, false) := by
  simp [stepMsg, hstart]

/-- Tag "C" (67) dispatches to the execute-with-price branch once
started. -/
theorem stepMsg_C (st : PState) (msg : List Nat) (hstart : st.started = true) :
    stepMsg st 67 msg = stepC st msg := by
  simp [stepMsg, hstart]

/-- Tag "U" (85) dispatches to the replace branch with no gate on the
started flag. -/
theorem stepMsg_U (st : PState) (msg : List Nat) : stepMsg st 85 msg = stepU st msg := by
  simp [stepMsg]

/-! ## Hourly-table lemmas -/

/-- The initial bucket row every security receives. -/
def zeroRow : List (String × (ℚ × Nat)) := hourLabels.map (fun h => (h, ((0 : ℚ), (0 : Nat))))

/-- Looking a directory member up in the fresh hourly table returns
the row of seven zero buckets. -/
theorem alLookup_hourlyMap (ids : List Nat) (o c id : Nat) (hid : id ∈ ids) :
    alLookup id (hourlyMap ids o c) = some zeroRow := by
  induction ids with
  | nil => cases hid
  | cons a t ih =>
    simp only [hourlyMap, List.map_cons, alLookup]
    by_cases ha : a = id
    · rw [if_pos ha]; rfl
    · rw [if_neg ha]
      have hmem : id ∈ t := by
        rcases List.mem_cons.1 hid with h1 | h1
        · exact absurd h1.symm ha
        · exact h1
      simpa only [hourlyMap] using ih hmem

/-- Every row of the fresh hourly table is the zero row. -/
theorem alLookup_hourlyMap_row (ids : List Nat) (o c id : Nat)
    (row : List (String × (ℚ × Nat))) (h : alLookup id (hourlyMap ids o c) = some row) :
    row = zeroRow := by
  induction ids with
  | nil => simp [hourlyMap, alLookup] at h
  | cons a t ih =>
    simp only [hourlyMap, List.map_cons, alLookup] at h
    by_cases ha : a = id
    · rw [if_pos ha] at h
      injection h with h1
      exact h1.symm
    · rw [if_neg ha] at h
      exact ih (by simpa only [hourlyMap] using h)

/-- Every label of the seven is present in the zero row. -/
theorem zeroRow_labels : ∀ lab ∈ hourLabels, (alLookup lab zeroRow).isSome := by
  decide

/-- parseOrders preserves per-row presence of all seven hour labels:
it only overwrites buckets that were already read. -/
theorem parseOrders_row_labels (orders : List (Nat × ℚ × Nat × Nat))
    (T T' : List (Nat × List (String × (ℚ × Nat)))) (endTime : Nat)
    (h : parseOrders T orders endTime = .ok T')
    (hT : ∀ id row, alLookup id T = some row → ∀ lab ∈ hourLabels, (alLookup lab row).isSome) :
    ∀ id row, alLookup id T' = some row → ∀ lab ∈ hourLabels, (alLookup lab row).isSome := by
  induction orders generalizing T with
  | nil =>
    simp only [parseOrders, Except.ok.injEq] at h
    subst h; exact hT
  | cons o rest ih =>
    obtain ⟨stock, price, quantity, time⟩ := o
    simp only [parseOrders] at h
    cases hl1 : alLookup stock T with
    | none => simp only [hl1] at h; exact Except.noConfusion h
    | some strow =>
      simp only [hl1] at h
      cases hl2 : alLookup (calculateHour (time : Int) (endTime : Int)) strow with
      | none => simp only [hl2] at h; exact Except.noConfusion h
      | some bq =>
        obtain ⟨curValue, curQuantity⟩ := bq
        simp only [hl2] at h
        refine ih _ h ?_
        intro id row hrow lab hlab
        rw [alLookup_alUpdate] at hrow
        by_cases hid : id = stock
        · rw [if_pos hid] at hrow
          injection hrow with hr
          subst hr
          rw [alLookup_alUpdate]
          by_cases hhl : lab = calculateHour (time : Int) (endTime : Int)
          · rw [if_pos hhl]; rfl
          · rw [if_neg hhl]
            exact hT stock strow hl1 lab hlab
        · rw [if_neg hid] at hrow
          exact hT id row hrow lab hlab

/-! ## Claim theorems -/

/-- C1 (counterexample): the claim fails on the code.  A timestamp
equal to the close maps to the label "4:00" (12-hour clock), not
"16:00"; and a timestamp exactly 7 hours before close maps to "9:00"
rather than being clamped into the "10:00" bucket. -/
theorem C1_hour_bucket_counterexample :
    calculateHour (7 * nsPerHour) (7 * nsPerHour) ≠ "16:00" ∧
    calculateHour 0 (7 * nsPerHour) ≠ "10:00" ∧
    calculateHour 0 (7 * nsPerHour) = "9:00" := by
  refine ⟨?_, ?_, ?_⟩ <;> decide

/-- C1 (amended): calculateHour is total; for a timestamp at most 6
whole hours before close it lands in the seven 12-hour-clock labels
"10:00" ... "4:00", with the close itself mapping to "4:00" (4 PM)
and exactly 6 hours before close mapping to "10:00"; a timestamp
exactly 7 hours before close maps to "9:00", a label outside the
seven buckets — there is no clamping of early timestamps. -/
theorem C1_hour_bucket_amended (t close : Int) (h0 : 0 ≤ t) (ht : t ≤ close)
    (hq : Int) (hh : hq = (close - t).fdiv nsPerHour) :
    (hq ≤ 6 → calculateHour t close ∈ hourLabels) ∧
    (t = close → calculateHour t close = "4:00") ∧
    (hq = 6 → calculateHour t close = "10:00") ∧
    (hq = 7 → calculateHour t close = "9:00" ∧ "9:00" ∉ hourLabels) := by
  have hq0 : 0 ≤ hq := by
    rw [hh]
    exact Int.fdiv_nonneg (by omega) (by norm_num [nsPerHour])
  refine ⟨?_, ?_, ?_, ?_⟩
  · intro h6
    unfold calculateHour
    rw [← hh]
    interval_cases hq <;> decide
  · intro he
    subst he
    unfold calculateHour
    rw [sub_self, Int.zero_fdiv]
    decide
  · intro h6
    unfold calculateHour
    rw [← hh, h6]
    decide
  · intro h7
    unfold calculateHour
    rw [← hh, h7]
    exact ⟨by decide, by decide⟩

/-- C1 (witness): the amended theorem at the concrete session close
0: the close maps to "4:00", one of the seven labels. -/
theorem C1_hour_bucket_amended_witness :
    calculateHour 0 0 = "4:00" ∧ calculateHour 0 0 ∈ hourLabels :=
  ⟨(C1_hour_bucket_amended 0 0 le_rfl le_rfl 0 (by decide)).2.1 rfl,
   (C1_hour_bucket_amended 0 0 le_rfl le_rfl 0 (by decide)).1 (by decide)⟩

/-- C2 (counterexample): the claim fails on the code.  The byte 90
("Z") is not in the layout table, yet the Replace message that follows
it in the stream is still decoded and applied: the decoder does not
stop at the first unrecognized tag. -/
theorem C2_unknown_tag_counterexample :
    alLookup 90 messageMap = none ∧
    parseLoop (90 :: 85 :: List.replicate 34 0) initState =
      .ok { initState with added_orders := [(0, 0)] } := by
  constructor
  · decide
  · with_unfolding_all decide

/-- C2 (amended): on an unrecognized ASCII tag byte the loop consumes
exactly that one byte and keeps decoding from the next byte; an
unrecognized non-ASCII byte aborts the run with a decode error
(bytes.decode fails).  In neither case does the loop quietly stop. -/
theorem C2_unknown_tag_amended (tag : Nat) (rest : List Nat) (st : PState)
    (hmap : alLookup tag messageMap = none) :
    (tag < 128 → parseLoop (tag :: rest) st = parseLoop rest st) ∧
    (128 ≤ tag → parseLoop (tag :: rest) st = .error .decodeError) :=
  ⟨fun h1 => parseLoop_cons_skip tag rest st h1 hmap,
   fun h2 => parseLoop_cons_bad tag rest st h2⟩

/-- C2 (witness): the amended theorem at tag 90 followed by a Replace
message: the loop continues and processes the Replace. -/
theorem C2_unknown_tag_amended_witness :
    parseLoop (90 :: 85 :: List.replicate 34 0) initState =
      parseLoop (85 :: List.replicate 34 0) initState :=
  (C2_unknown_tag_amended 90 (85 :: List.replicate 34 0) initState (by decide)).1 (by decide)

/-- C3: a plain Execute ("E") processed while started, whose
reference number was never registered, aborts the whole run with a
key-lookup error: the result of the loop is an error, so no trade is
skipped and nothing reaches the volume totals. -/
theorem C3_unknown_reference_error (st : PState) (e tail : List Nat) (r : Nat)
    (hstart : st.started = true) (hlen : e.length = 30)
    (href : field e 10 8 = r) (hmiss : alLookup r st.added_orders = none) :
    parseLoop (69 :: (e ++ tail)) st = .error .keyError := by
  rw [parseLoop_cons_known 69 30 (e ++ tail) st (by omega) (by decide)]
  have htake : (e ++ tail).take 30 = e := by rw [← hlen]; exact List.take_left e tail
  rw [htake, stepMsg_E st e hstart]
  unfold stepE
  rw [if_pos hlen, href, hmiss]

/-- C3 (witness): a started state with an empty order table aborts on
an Execute for reference 0. -/
theorem C3_unknown_reference_error_witness :
    parseLoop (69 :: (List.replicate 30 0 ++ [])) ⟨0, 0, [], [], [], true⟩ = .error .keyError :=
  C3_unknown_reference_error ⟨0, 0, [], [], [], true⟩ (List.replicate 30 0) [] 0
    rfl (by decide) (by decide) (by decide)

/-- C9: as soon as a System message with event code "M" (77) is
decoded, the loop returns with the close timestamp recorded — the
result does not depend on the bytes after the message, so nothing
after it is read, and the collected trades are exactly those already
collected. -/
theorem C9_close_terminates (st : PState) (msg tail : List Nat)
    (hlen : msg.length = 11) (hM : field msg 10 1 = 77) :
    parseLoop (83 :: (msg ++ tail)) st =
      .ok { st with endTime := decodeTimestamp ((msg.drop 4).take 6) } := by
  rw [parseLoop_cons_known 83 11 (msg ++ tail) st (by omega) (by decide)]
  have htake : (msg ++ tail).take 11 = msg := by rw [← hlen]; exact List.take_left msg tail
  rw [htake, stepMsg_S st msg]
  unfold stepS
  rw [if_pos hlen, hM]
  norm_num

/-- C9 (witness): the close message with an arbitrary trailing byte
stream: the result ignores the tail entirely. -/
theorem C9_close_terminates_witness :
    parseLoop (83 :: ([0, 0, 0, 0, 0, 0, 0, 0, 0, 0, 77] ++ [69, 42, 99])) initState =
      .ok { initState with endTime := decodeTimestamp (([0, 0, 0, 0, 0, 0, 0, 0, 0, 0, 77].drop 4).take 6) } :=
  C9_close_terminates initState [0, 0, 0, 0, 0, 0, 0, 0, 0, 0, 77] [69, 42, 99]
    (by decide) (by decide)

/-- C6: an Order Replace ("U") is processed whatever the state — in
particular whether or not the market has opened — and its whole
effect is to map the new reference number (the second uint64 of the
payload, offset 18) to the message's price; the trade list and every
other state component are untouched. -/
theorem C6_replace_unconditional (st : PState) (u tail : List Nat) (hlen : u.length = 34) :
    parseLoop (85 :: (u ++ tail)) st =
      parseLoop tail { st with added_orders := alUpdate (field u 18 8) ((field u 30 4 : ℚ) / ((10 ^ 4 : ℕ) : ℚ)) st.added_orders } := by
  rw [parseLoop_cons_known 85 34 (u ++ tail) st (by omega) (by decide)]
  have htake : (u ++ tail).take 34 = u := by rw [← hlen]; exact List.take_left u tail
  have hdrop : (u ++ tail).drop 34 = tail := by rw [← hlen]; exact List.drop_left u tail
  rw [htake, hdrop, stepMsg_U st u]
  unfold stepU
  rw [if_pos hlen]

/-- C6 (witness): a Replace of 34 zero bytes processed from the
initial, not-yet-started state registers reference 0 at price 0. -/
theorem C6_replace_unconditional_witness :
    parseLoop (85 :: (List.replicate 34 0 ++ [])) initState =
      parseLoop [] { initState with added_orders := alUpdate (field (List.replicate 34 0) 18 8) ((field (List.replicate 34 0) 30 4 : ℚ) / ((10 ^ 4 : ℕ) : ℚ)) initState.added_orders } :=
  C6_replace_unconditional initState (List.replicate 34 0) [] (by decide)

instance (m : Nat × List Nat) : Decidable (wfMsg m) :=
  decidable_of_iff (m.1 < 128 ∧ alLookup m.1 messageMap = some m.2.length) Iff.rfl

instance (r : Nat) (m : Nat × List Nat) : Decidable (registersRef r m) :=
  decidable_of_iff (((m.1 = 65 ∨ m.1 = 70) ∧ field m.2 10 8 = r) ∨ (m.1 = 85 ∧ field m.2 18 8 = r)) Iff.rfl

/-- One Replace message at the head of the stream: its whole effect is
the order-table update for the new reference number. -/
theorem parseLoop_replace (st : PState) (u tail : List Nat) (hlen : u.length = 34) :
    parseLoop (85 :: (u ++ tail)) st =
      parseLoop tail { st with added_orders := alUpdate (field u 18 8) ((field u 30 4 : ℚ) / ((10 ^ 4 : ℕ) : ℚ)) st.added_orders } := by
  rw [parseLoop_cons_known 85 34 (u ++ tail) st (by omega) (by decide)]
  have htake : (u ++ tail).take 34 = u := by rw [← hlen]; exact List.take_left u tail
  have hdrop : (u ++ tail).drop 34 = tail := by rw [← hlen]; exact List.drop_left u tail
  rw [htake, hdrop, stepMsg_U st u]
  unfold stepU
  rw [if_pos hlen]

/-- One Execute message at the head of the stream, from a started
state whose table resolves its reference: its whole effect is one
appended TradeEvent at the registered price. -/
theorem parseLoop_execute (st : PState) (e tail : List Nat) (p : ℚ)
    (hstart : st.started = true) (hlen : e.length = 30)
    (hlook : alLookup (field e 10 8) st.added_orders = some p) :
    parseLoop (69 :: (e ++ tail)) st =
      parseLoop tail { st with filled_orders := st.filled_orders ++ [(field e 0 2, p, field e 18 4, decodeTimestamp ((e.drop 4).take 6))] } := by
  rw [parseLoop_cons_known 69 30 (e ++ tail) st (by omega) (by decide)]
  have htake : (e ++ tail).take 30 = e := by rw [← hlen]; exact List.take_left e tail
  have hdrop : (e ++ tail).drop 30 = tail := by rw [← hlen]; exact List.drop_left e tail
  rw [htake, hdrop, stepMsg_E st e hstart]
  unfold stepE
  rw [if_pos hlen, hlook]

/-- C7: after an arbitrary run of well-framed messages none of which
registers reference r — from a started state whose order table maps r
to p — a plain Execute against r appends exactly one TradeEvent
priced p, carrying the execute message's own quantity (uint32 at
offset 18) and timestamp, and the loop continues on the tail. -/
theorem C7_add_then_execute (st st2 : PState) (r : Nat) (p : ℚ)
    (ms : List (Nat × List Nat)) (e tail : List Nat)
    (hstart : st.started = true)
    (hlook : alLookup r st.added_orders = some p)
    (hwf : ∀ m ∈ ms, wfMsg m)
    (hnr : ∀ m ∈ ms, ¬ registersRef r m)
    (hrun : runMsgs ms st = .ok (st2, false))
    (hlen : e.length = 30)
    (href : field e 10 8 = r) :
    parseLoop (encodeMsgs ms ++ 69 :: (e ++ tail)) st =
      parseLoop tail { st2 with filled_orders := st2.filled_orders ++ [(field e 0 2, p, field e 18 4, decodeTimestamp ((e.drop 4).take 6))] } := by
  rw [parseLoop_encodeMsgs ms (69 :: (e ++ tail)) st hwf]
  simp only [hrun]
  obtain ⟨hpres, hsm⟩ := runMsgs_ok_inv ms st st2 r hrun hnr
  exact parseLoop_execute st2 e tail p (hsm hstart) hlen (by rw [href, hpres]; exact hlook)

/-- C7 (witness): an Add-registered reference 5 at price 3 survives an
intervening trading-action message and the Execute trades at price 3. -/
theorem C7_add_then_execute_witness :
    parseLoop (encodeMsgs [(72, List.replicate 24 0)] ++ 69 :: ((List.replicate 17 0 ++ 5 :: List.replicate 12 0) ++ [])) ⟨0, 0, [], [(5, 3)], [], true⟩ =
      parseLoop [] { (⟨0, 0, [], [(5, 3)], [], true⟩ : PState) with filled_orders := [] ++ [(field (List.replicate 17 0 ++ 5 :: List.replicate 12 0) 0 2, 3, field (List.replicate 17 0 ++ 5 :: List.replicate 12 0) 18 4, decodeTimestamp (((List.replicate 17 0 ++ 5 :: List.replicate 12 0).drop 4).take 6))] } :=
  C7_add_then_execute ⟨0, 0, [], [(5, 3)], [], true⟩ ⟨0, 0, [], [(5, 3)], [], true⟩ 5 3
    [(72, List.replicate 24 0)] (List.replicate 17 0 ++ 5 :: List.replicate 12 0) []
    rfl (by decide) (by decide)
    (by decide) (by with_unfolding_all decide) (by decide) (by decide)

/-- C10: a Replace registering new reference r2 leaves the old
reference r1's entry untouched — its lookup still returns p1 — and a
subsequent started Execute against r1 succeeds, trading at r1's
registered price p1 rather than being rejected. -/
theorem C10_stale_reference_retained (st : PState) (r1 r2 : Nat) (p1 : ℚ) (u e tail : List Nat)
    (hstart : st.started = true)
    (hlook : alLookup r1 st.added_orders = some p1)
    (hulen : u.length = 34) (hur2 : field u 18 8 = r2) (hne : r2 ≠ r1)
    (helen : e.length = 30) (her : field e 10 8 = r1) :
    alLookup r1 (alUpdate r2 ((field u 30 4 : ℚ) / ((10 ^ 4 : ℕ) : ℚ)) st.added_orders) = some p1 ∧
    parseLoop (85 :: (u ++ 69 :: (e ++ tail))) st =
      parseLoop tail { st with
        added_orders := alUpdate r2 ((field u 30 4 : ℚ) / ((10 ^ 4 : ℕ) : ℚ)) st.added_orders,
        filled_orders := st.filled_orders ++ [(field e 0 2, p1, field e 18 4, decodeTimestamp ((e.drop 4).take 6))] } := by
  have hkeep : alLookup r1 (alUpdate r2 ((field u 30 4 : ℚ) / ((10 ^ 4 : ℕ) : ℚ)) st.added_orders) = some p1 := by
    rw [alLookup_alUpdate_ne _ _ (fun he => hne he.symm), hlook]
  refine ⟨hkeep, ?_⟩
  rw [parseLoop_replace st u (69 :: (e ++ tail)) hulen, hur2]
  exact parseLoop_execute _ e tail p1 hstart helen (by rw [her]; exact hkeep)

/-- C10 (witness): replace introduces reference 9, the old reference
5 still trades at its price 3. -/
theorem C10_stale_reference_retained_witness :
    alLookup 5 (alUpdate 9 ((field (List.replicate 25 0 ++ 9 :: List.replicate 8 0) 30 4 : ℚ) / ((10 ^ 4 : ℕ) : ℚ)) [(5, 3)]) = some 3 ∧
    parseLoop (85 :: ((List.replicate 25 0 ++ 9 :: List.replicate 8 0) ++ 69 :: ((List.replicate 17 0 ++ 5 :: List.replicate 12 0) ++ []))) ⟨0, 0, [], [(5, 3)], [], true⟩ =
      parseLoop [] { (⟨0, 0, [], [(5, 3)], [], true⟩ : PState) with
        added_orders := alUpdate 9 ((field (List.replicate 25 0 ++ 9 :: List.replicate 8 0) 30 4 : ℚ) / ((10 ^ 4 : ℕ) : ℚ)) [(5, 3)],
        filled_orders := [] ++ [(field (List.replicate 17 0 ++ 5 :: List.replicate 12 0) 0 2, 3, field (List.replicate 17 0 ++ 5 :: List.replicate 12 0) 18 4, decodeTimestamp (((List.replicate 17 0 ++ 5 :: List.replicate 12 0).drop 4).take 6))] } :=
  C10_stale_reference_retained ⟨0, 0, [], [(5, 3)], [], true⟩ 5 9 3
    (List.replicate 25 0 ++ 9 :: List.replicate 8 0)
    (List.replicate 17 0 ++ 5 :: List.replicate 12 0) []
    rfl (by decide) (by decide) (by decide) (by decide) (by decide) (by decide)

/-- C8: a started Execute-With-Price whose printable flag byte is "Y"
(89), wire price 1002500 and wire quantity 10 appends exactly one
TradeEvent with price 1002500 / 10000 and quantity 10; folding that
trade into a bucket holding (v, q) yields exactly (v + 2005/2, q + 10)
— a contribution of 1002.50 to value and 10 to quantity.  A message
whose printable flag is anything other than "Y" never changes the
state: whenever its processing returns at all, it returns the state
unchanged with no break. -/
theorem C8_execute_with_price (st : PState) (msg : List Nat)
    (hstart : st.started = true) (hlen : msg.length = 35) :
    (field msg 30 1 = 89 → field msg 31 4 = 1002500 → field msg 18 4 = 10 →
      stepMsg st 67 msg = .ok ({ st with filled_orders := st.filled_orders ++ [(field msg 0 2, (1002500 : ℚ) / ((10 ^ 4 : ℕ) : ℚ), 10, decodeTimestamp ((msg.drop 4).take 6))] }, false)) ∧
    (∀ T : List (Nat × List (String × (ℚ × Nat))), ∀ strow : List (String × (ℚ × Nat)),
      ∀ s : Nat, ∀ v : ℚ, ∀ q : Nat, ∀ time close : Nat,
      alLookup s T = some strow →
      alLookup (calculateHour (time : Int) (close : Int)) strow = some (v, q) →
      parseOrders T [(s, (1002500 : ℚ) / ((10 ^ 4 : ℕ) : ℚ), 10, time)] close =
        .ok (alUpdate s (alUpdate (calculateHour (time : Int) (close : Int)) (v + 2005 / 2, q + 10) strow) T)) ∧
    (field msg 30 1 ≠ 89 → ∀ st2 b, stepMsg st 67 msg = .ok (st2, b) → st2 = st ∧ b = false) := by
  refine ⟨?_, ?_, ?_⟩
  · intro hY hprice hqty
    rw [stepMsg_C st msg hstart]
    unfold stepC
    rw [if_pos hlen, hY, hprice, hqty]
    norm_num
  · intro T strow s v q time close hT hrow
    simp only [parseOrders, hT, hrow]
    have hval : v + (1002500 : ℚ) / ((10 ^ 4 : ℕ) : ℚ) * ((10 : ℕ) : ℚ) = v + 2005 / 2 := by
      norm_num
    rw [hval]
  · intro hny st2 b h
    rw [stepMsg_C st msg hstart] at h
    unfold stepC at h
    rw [if_pos hlen, if_neg hny] at h
    split at h
    · exact Except.noConfusion h
    · injection h with hp
      injection hp with he1 he2
      exact ⟨he1.symm, he2.symm⟩

/-- C8 (witness): the concrete printable message with price bytes
[0, 15, 76, 4] (1002500) and quantity bytes [0, 0, 0, 10], plus the
bucket fold at a one-security table, plus a non-printable flag 78
("N") leaving the state unchanged. -/
theorem C8_execute_with_price_witness :
    (stepMsg ⟨0, 0, [], [], [], true⟩ 67 (List.replicate 18 0 ++ [0, 0, 0, 10] ++ List.replicate 8 0 ++ [89] ++ [0, 15, 76, 4]) =
      .ok ({ (⟨0, 0, [], [], [], true⟩ : PState) with filled_orders := [] ++ [(field (List.replicate 18 0 ++ [0, 0, 0, 10] ++ List.replicate 8 0 ++ [89] ++ [0, 15, 76, 4]) 0 2, (1002500 : ℚ) / ((10 ^ 4 : ℕ) : ℚ), 10, decodeTimestamp (((List.replicate 18 0 ++ [0, 0, 0, 10] ++ List.replicate 8 0 ++ [89] ++ [0, 15, 76, 4]).drop 4).take 6))] }, false)) ∧
    (parseOrders [(1, [("4:00", ((0 : ℚ), (0 : Nat)))])] [(1, (1002500 : ℚ) / ((10 ^ 4 : ℕ) : ℚ), 10, 0)] 0 =
      .ok (alUpdate 1 (alUpdate (calculateHour ((0 : Nat) : Int) ((0 : Nat) : Int)) ((0 : ℚ) + 2005 / 2, 0 + 10) [("4:00", ((0 : ℚ), (0 : Nat)))]) [(1, [("4:00", ((0 : ℚ), (0 : Nat)))])])) ∧
    ((⟨0, 0, [], [], [], true⟩ : PState) = ⟨0, 0, [], [], [], true⟩ ∧ false = false) := by
  refine ⟨?_, ?_, ?_⟩
  · exact (C8_execute_with_price ⟨0, 0, [], [], [], true⟩ _ rfl (by decide)).1 (by decide) (by decide) (by decide)
  · exact (C8_execute_with_price ⟨0, 0, [], [], [], true⟩ (List.replicate 35 0) rfl (by decide)).2.1
      [(1, [("4:00", ((0 : ℚ), (0 : Nat)))])] [("4:00", ((0 : ℚ), (0 : Nat)))] 1 0 0 0 0
      (by decide) (by with_unfolding_all decide)
  · exact (C8_execute_with_price ⟨0, 0, [], [], [], true⟩ (List.replicate 35 0) rfl (by decide)).2.2
      (by decide) ⟨0, 0, [], [], [], true⟩ false (by with_unfolding_all decide)

/-- C4: the VWAP projector emits exactly 7 numbers per security.  In
general, any bucket row holding all seven hour labels yields a
successful run of 7 triples, each emitting cumulative value over
cumulative quantity when the cumulative quantity is nonzero and 0
otherwise; a directory security in the fresh hourly table has the
all-zero row, whose emitted column is seven exact 0s; and every
security row produced by a full parseTrades run still yields exactly
7 values. -/
theorem C4_vwap_seven_values :
    (∀ stockTrades : List (String × (ℚ × Nat)),
      (∀ lab ∈ hourLabels, (alLookup lab stockTrades).isSome) →
      ∃ l, vwapRowAux stockTrades hourLabels 0 0 = .ok l ∧ l.length = 7 ∧
        ∀ e ∈ l, e.2.2 = if e.2.1 ≠ 0 then e.1 / (e.2.1 : ℚ) else 0) ∧
    (∀ ids : List Nat, ∀ o c id : Nat, id ∈ ids →
      alLookup id (hourlyMap ids o c) = some zeroRow ∧
      vwapRow zeroRow = .ok (List.replicate 7 0)) ∧
    (∀ bytes : List Nat, ∀ sm : List (Nat × String),
      ∀ T : List (Nat × List (String × (ℚ × Nat))),
      ∀ id : Nat, ∀ strow : List (String × (ℚ × Nat)),
      parseTrades bytes = .ok (sm, T) → alLookup id T = some strow →
      ∃ l, vwapRowAux strow hourLabels 0 0 = .ok l ∧ l.length = 7) := by
  refine ⟨?_, ?_, ?_⟩
  · intro stockTrades hpres
    obtain ⟨l, hl⟩ := vwapRowAux_total stockTrades hourLabels 0 0 hpres
    refine ⟨l, hl, ?_, vwapRowAux_emit _ _ _ _ _ hl⟩
    rw [vwapRowAux_length _ _ _ _ _ hl]; rfl
  · intro ids o c id hid
    exact ⟨alLookup_hourlyMap ids o c id hid, by with_unfolding_all decide⟩
  · intro bytes sm T id strow hpt hrow
    unfold parseTrades at hpt
    cases hpl : parseLoop bytes initState with
    | error e => simp only [hpl] at hpt; exact Except.noConfusion hpt
    | ok st =>
      simp only [hpl] at hpt
      cases hpo : parseOrders (hourlyMap (st.stock_map.map Prod.fst) st.openTime st.endTime)
          st.filled_orders st.endTime with
      | error e => simp only [hpo] at hpt; exact Except.noConfusion hpt
      | ok T2 =>
        simp only [hpo, Except.ok.injEq, Prod.mk.injEq] at hpt
        obtain ⟨hsm, hT⟩ := hpt
        subst hT
        have hlabels := parseOrders_row_labels st.filled_orders _ _ st.endTime hpo
          (fun id2 row2 hrow2 => by
            rw [alLookup_hourlyMap_row _ _ _ _ _ hrow2]
            exact zeroRow_labels)
        obtain ⟨l, hl⟩ := vwapRowAux_total strow hourLabels 0 0 (hlabels id strow hrow)
        refine ⟨l, hl, ?_⟩
        rw [vwapRowAux_length _ _ _ _ _ hl]; rfl

/-- C4 (witness): the three parts at the zero row, at the one-entry
directory, and at a concrete stream of one Stock Directory message
followed by the market-close message. -/
theorem C4_vwap_seven_values_witness :
    (∃ l, vwapRowAux zeroRow hourLabels 0 0 = .ok l ∧ l.length = 7 ∧
      ∀ e ∈ l, e.2.2 = if e.2.1 ≠ 0 then e.1 / (e.2.1 : ℚ) else 0) ∧
    (alLookup 1 (hourlyMap [1] 0 0) = some zeroRow ∧
      vwapRow zeroRow = .ok (List.replicate 7 0)) ∧
    (∃ l, vwapRowAux zeroRow hourLabels 0 0 = .ok l ∧ l.length = 7) := by
  refine ⟨?_, ?_, ?_⟩
  · exact C4_vwap_seven_values.1 zeroRow (by decide)
  · exact C4_vwap_seven_values.2.1 [1] 0 0 1 (by decide)
  · exact C4_vwap_seven_values.2.2
      (82 :: (([0, 1] ++ List.replicate 8 0 ++ List.replicate 8 32 ++ List.replicate 20 0) ++ 83 :: [0, 0, 0, 0, 0, 0, 0, 0, 0, 0, 77]))
      [(1, "")] [(1, zeroRow)] 1 zeroRow
      (by with_unfolding_all rfl) (by decide)

/-- C5: the running VWAP is a correct fold: over the seven labels,
each consecutive pair of emitted triples satisfies cumulative value
and quantity at hour i+1 equal to those at hour i plus the bucket
contribution of hour i+1, and any triple with positive cumulative
quantity emits exactly cumulative value divided by cumulative
quantity. -/
theorem C5_running_vwap_fold (stockTrades : List (String × (ℚ × Nat))) (l : List (ℚ × Nat × ℚ))
    (h : vwapRowAux stockTrades hourLabels 0 0 = .ok l) :
    (∀ i, i + 1 < l.length → ∀ b, alLookup (hourLabels.getD (i + 1) "") stockTrades = some b →
      (l.getD (i + 1) vwapDefault).1 = (l.getD i vwapDefault).1 + b.1 ∧
      (l.getD (i + 1) vwapDefault).2.1 = (l.getD i vwapDefault).2.1 + b.2) ∧
    (∀ j, j < l.length → (l.getD j vwapDefault).2.1 ≠ 0 →
      (l.getD j vwapDefault).2.2 = (l.getD j vwapDefault).1 / ((l.getD j vwapDefault).2.1 : ℚ)) := by
  constructor
  · intro i hi b hb
    obtain ⟨b2, hb2, he2⟩ := (vwapRowAux_chain _ _ _ _ _ h).2 i hi
    rw [hb] at hb2
    injection hb2 with hb2
    subst hb2
    rw [he2]
    obtain ⟨hc1, hc2⟩ := VWAP_cum b (l.getD i vwapDefault).1 (l.getD i vwapDefault).2.1
    exact ⟨by rw [hc1]; exact add_comm _ _, by rw [hc2]; exact Nat.add_comm _ _⟩
  · intro j hj hq0
    have hmem : l.getD j vwapDefault ∈ l := by
      rw [List.getD_eq_getElem l vwapDefault hj]
      exact List.getElem_mem hj
    have := vwapRowAux_emit _ _ _ _ _ h _ hmem
    rw [this, if_pos hq0]

/-- C5 (witness): a row with 10 value and 2 quantity in the 10:00
bucket and zeros later: each later hour carries the same cumulative
pair and the emitted value is 5 throughout. -/
theorem C5_running_vwap_fold_witness :
    ((List.replicate 7 ((10 : ℚ), (2 : Nat), (5 : ℚ))).getD 1 vwapDefault).1 =
        ((List.replicate 7 ((10 : ℚ), (2 : Nat), (5 : ℚ))).getD 0 vwapDefault).1 + (0 : ℚ) ∧
    ((List.replicate 7 ((10 : ℚ), (2 : Nat), (5 : ℚ))).getD 0 vwapDefault).2.2 =
        ((List.replicate 7 ((10 : ℚ), (2 : Nat), (5 : ℚ))).getD 0 vwapDefault).1 /
          (((List.replicate 7 ((10 : ℚ), (2 : Nat), (5 : ℚ))).getD 0 vwapDefault).2.1 : ℚ) := by
  have h : vwapRowAux (("10:00", ((10 : ℚ), (2 : Nat))) :: (hourLabels.drop 1).map (fun lab => (lab, ((0 : ℚ), (0 : Nat))))) hourLabels 0 0 =
      .ok (List.replicate 7 ((10 : ℚ), (2 : Nat), (5 : ℚ))) := by
    with_unfolding_all decide
  have hc := C5_running_vwap_fold _ _ h
  constructor
  · exact (hc.1 0 (by decide) (0, 0) (by decide)).1
  · exact hc.2 0 (by decide) (by decide)
